import Mathlib

/-!
Verification of the chunked transfer-coding layer of
`chunkable_http_server.py` (class `ChunkableHTTPRequestHandler`).

Byte strings (Python 2 `str`) are modelled as `List Nat`, one entry per
byte.  The socket stream is a finite byte list consumed from the front:
a zero-length read models the peer having closed the connection.

The embedded operations:
  * `readline H s`        — `rfile.readline(H)`: read at most `H` bytes,
                            stopping after the first LF (byte 10);
  * `readPy n s`          — `rfile.read(n)`: read at most `n` bytes
                            (all remaining bytes when `n` is negative,
                            as in Python);
  * `pyIntHex s`          — Python `int(s, 16)`;
  * `readChunksLoop`      — the chunk-reading `while` loop of
                            `__read_chunked`;
  * `skipFooter`          — the trailer-skipping loop of `__read_chunked`;
  * `decodeChunked`       — `__read_chunked` as a whole (the list handed
                            to `post_read`);
  * `fragments`, `sendChunked` — the body-framing part of `send_chunked`;
  * `initHandler`         — the kwargs validation of `__init__`.
-/

/-- Carriage return + line feed, the two-byte line terminator. -/
def crlf : List Nat := [13, 10]

/-- `rfile.readline(limit)`: read bytes until and including the first
LF byte (10), but never more than `limit` bytes.  Returns the line read
and the remaining stream.  Translated from the use of
`self.rfile.readline(self.chunk_header_length)` in `__read_chunked`. -/
def readline : Nat → List Nat → List Nat × List Nat
  | 0, s => ([], s)
  | _ + 1, [] => ([], [])
  | n + 1, b :: rest =>
    if b = 10 then ([b], rest)
    else
      let p := readline n rest
      (b :: p.1, p.2)

/-- `rfile.read(n)` for a Python `int` argument `n`: a negative argument
reads everything remaining, otherwise at most `n` bytes are read. -/
def readPy (n : Int) (s : List Nat) : List Nat × List Nat :=
  if n < 0 then (s, []) else (s.take n.toNat, s.drop n.toNat)

/-- Bytes that Python `int` strips as whitespace. -/
def isSpaceByte (b : Nat) : Bool :=
  b = 32 || b = 9 || b = 10 || b = 11 || b = 12 || b = 13

/-- ASCII hexadecimal digit bytes `0-9`, `a-f`, `A-F`. -/
def isHexDigitByte (b : Nat) : Bool :=
  (48 ≤ b && b ≤ 57) || (97 ≤ b && b ≤ 102) || (65 ≤ b && b ≤ 70)

/-- Numeric value of a hexadecimal digit byte. -/
def hexDigitVal (b : Nat) : Nat :=
  if b ≤ 57 then b - 48 else if b ≤ 70 then b - 55 else b - 87

/-- Strip leading and trailing whitespace bytes, as Python `int` does
before parsing a numeric string. -/
def stripBytes (s : List Nat) : List Nat :=
  ((s.dropWhile isSpaceByte).reverse.dropWhile isSpaceByte).reverse

/-- Remove a leading `0x` / `0X`, which `int(·, 16)` tolerates. -/
def stripHexPrefix (s : List Nat) : List Nat :=
  if s.head? = some 48 ∧ (s.tail.head? = some 120 ∨ s.tail.head? = some 88)
  then s.tail.tail else s

/-- Parse an unsigned hexadecimal numeral, allowing the optional `0x` /
`0X` prefix that Python `int(·, 16)` accepts.  Fails when no digit is
present or a non-digit byte occurs. -/
def parseHexDigits (s : List Nat) : Option Nat :=
  if stripHexPrefix s ≠ [] ∧ (stripHexPrefix s).all isHexDigitByte then
    some ((stripHexPrefix s).foldl (fun a b => 16 * a + hexDigitVal b) 0)
  else none

/-- Python `int(s, 16)`: strip surrounding whitespace, accept an
optional sign, then an unsigned hexadecimal numeral (with optional `0x`
prefix).  `none` models the `ValueError` raised on anything else. -/
def pyIntHex (s : List Nat) : Option Int :=
  if (stripBytes s).head? = some 45 then
    (parseHexDigits (stripBytes s).tail).map (fun n => -(n : Int))
  else if (stripBytes s).head? = some 43 then
    (parseHexDigits (stripBytes s).tail).map (fun n => (n : Int))
  else if stripBytes s = [] then none
  else (parseHexDigits (stripBytes s)).map (fun n => (n : Int))

/-- `chunk_header.split(';', 1)[0]`: the bytes before the first `;`. -/
def splitSemi (s : List Nat) : List Nat := s.takeWhile (fun b => b ≠ 59)

/-- The failures `__read_chunked` can raise: `RuntimeError('Connection
reset by peer')`, the `ValueError` of `int(·, 16)`, and
`ValueError('too large content ...')`. -/
inductive DecodeError where
  | connectionReset
  | malformedChunkSize
  | bodyTooLarge
  deriving DecidableEq, Repr

theorem readline_append (H : Nat) (s : List Nat) :
    (readline H s).1 ++ (readline H s).2 = s := by
  induction H generalizing s with
  | zero => simp [readline]
  | succ n ih =>
    cases s with
    | nil => simp [readline]
    | cons b rest =>
      by_cases hb : b = 10
      · simp [readline, hb]
      · simp only [readline, if_neg hb]
        simpa using ih rest

theorem readline_snd_length_lt (H : Nat) (s : List Nat)
    (h : (readline H s).1 ≠ []) : (readline H s).2.length < s.length := by
  have happ := readline_append H s
  have : (readline H s).1.length + (readline H s).2.length = s.length := by
    rw [← List.length_append, happ]
  have hpos : 0 < (readline H s).1.length := List.length_pos.mpr h
  omega

theorem readPy_snd_length_le (n : Int) (s : List Nat) :
    (readPy n s).2.length ≤ s.length := by
  unfold readPy
  split <;> simp [List.length_drop]

/-- The chunk-reading `while True:` loop of `__read_chunked`, carrying
the running `total_length` and the accumulated `contents` list.  On a
normal exit (bare CRLF line or parsed chunk-size 0) it returns the
accumulated contents together with the unconsumed stream. -/
def readChunksLoop (H : Nat) (maxSize : Int) (total : Int)
    (contents : List (List Nat)) (s : List Nat) :
    Except DecodeError (List (List Nat) × List Nat) :=
  match hl : readline H s with
  | (line, s1) =>
    if line = crlf then .ok (contents, s1)
    else if hnil : line = [] then .error .connectionReset
    else
      match pyIntHex (splitSemi line) with
      | none => .error .malformedChunkSize
      | some sz =>
        if sz = 0 then .ok (contents, s1)
        else
          let chunk := (readPy sz s1).1
          let s2 := (readPy sz s1).2
          let s3 := (readPy 2 s2).2
          let total2 := total + sz
          if total2 > maxSize then .error .bodyTooLarge
          else readChunksLoop H maxSize total2 (contents ++ [chunk]) s3
termination_by s.length
decreasing_by
  have h1 := readline_snd_length_lt H s (by rw [hl]; exact hnil)
  have h2 := readPy_snd_length_le sz s1
  have h3 := readPy_snd_length_le 2 (readPy sz s1).2
  rw [hl] at h1
  have h1' : s1.length < s.length := h1
  omega

/-- The trailer-skipping loop of `__read_chunked` (the `cool down`
loop): read lines until a bare CRLF, failing on a zero-length read. -/
def skipFooter (H : Nat) (s : List Nat) :
    Except DecodeError (List Nat) :=
  match hl : readline H s with
  | (line, s1) =>
    if line = crlf then .ok s1
    else if hnil : line = [] then .error .connectionReset
    else skipFooter H s1
termination_by s.length
decreasing_by
  have h1 := readline_snd_length_lt H s (by rw [hl]; exact hnil)
  rw [hl] at h1
  exact h1

/-- `__read_chunked` on a byte stream: run the chunk loop with
`total_length = 0` and empty `contents`, then skip the trailer; the
result is the `contents` list handed to `post_read`. -/
def decodeChunked (H : Nat) (maxSize : Int) (s : List Nat) :
    Except DecodeError (List (List Nat)) :=
  match readChunksLoop H maxSize 0 [] s with
  | .error e => .error e
  | .ok (contents, s1) =>
    match skipFooter H s1 with
    | .error e => .error e
    | .ok _ => .ok contents

/-- ASCII byte of the lowercase hexadecimal digit `d`. -/
def hexDigitChar (d : Nat) : Nat := if d < 10 then 48 + d else 87 + d

/-- `hex(n)[2:]` for a non-negative Python integer `n`: lowercase
hexadecimal digits, most significant first, `"0"` for zero. -/
def hexStr (n : Nat) : List Nat :=
  if n < 16 then [hexDigitChar n]
  else hexStr (n / 16) ++ [hexDigitChar (n % 16)]
termination_by n
decreasing_by
  exact Nat.div_lt_self (by omega) (by omega)

/-- The fragment list `c_frag` built in `send_chunked`: with
`bl = len(c)/s + (1 if len(c) % s else 0)` (Python 2 integer division),
the slices `c[x*s : x*s+s]` for `x in range(bl)`. -/
def fragments (S : Nat) (c : List Nat) : List (List Nat) :=
  (List.range (c.length / S + (if c.length % S ≠ 0 then 1 else 0))).map
    (fun x => (c.drop (x * S)).take S)

/-- The bytes written for one fragment `i`:
`''.join([chunk_size, '\r\n', i, '\r\n'])` with
`chunk_size = hex(len(i))[2:]`. -/
def frameFragment (i : List Nat) : List Nat :=
  hexStr i.length ++ crlf ++ i ++ crlf

/-- The body bytes written by `send_chunked` after the header block:
every buffer of `msg_list` is sliced into fragments of at most
`chunk_max_size` bytes, each framed by `frameFragment`, and the stream
ends with `'0\r\n'` and `'\r\n'`. -/
def sendChunked (S : Nat) (msgs : List (List Nat)) : List Nat :=
  (msgs.map (fun c => ((fragments S c).map frameFragment).flatten)).flatten
    ++ [48] ++ crlf ++ crlf

/-- A Python value as far as the kwargs validation of `__init__` is
concerned: booleans, integers and byte strings. -/
inductive PyVal where
  | bool (b : Bool)
  | int (n : Int)
  | str (s : List Nat)
  deriving DecidableEq, Repr

/-- Python `==` on such values: `True == 1` and `False == 0` hold,
values of unrelated kinds compare unequal. -/
def pyEq : PyVal → PyVal → Bool
  | .bool a, .bool b => a = b
  | .int a, .int b => a = b
  | .bool a, .int b => (if a then (1 : Int) else 0) = b
  | .int a, .bool b => a = (if b then (1 : Int) else 0)
  | .str a, .str b => a = b
  | _, _ => false

/-- The keyword arguments a caller may pass to
`ChunkableHTTPRequestHandler.__init__` (a `**kwargs` dict may hold any
key; the fields list the three keys the constructor reads and the two
other options named by the configuration table). -/
structure Kwargs where
  force_chunked : Option PyVal := none
  chunk_max_size : Option Int := none
  chunk_read_timeout : Option Int := none
  max_content_size : Option Int := none
  chunk_header_length : Option Int := none
  deriving DecidableEq, Repr

/-- The per-instance attributes of `ChunkableHTTPRequestHandler`, with
the class-attribute defaults. -/
structure HandlerConfig where
  max_content_size : Int := 512 * 1024
  force_chunked : PyVal := .bool false
  chunk_max_size : Int := 512
  chunk_header_length : Int := 128
  chunk_tail_buffer : Int := 16
  chunk_read_timeout : Int := 5
  deriving DecidableEq, Repr

/-- The `ValueError`s `__init__` can raise, by offending option. -/
inductive InitError where
  | invalidForceChunked
  | invalidChunkMaxSize
  | invalidChunkReadTimeout
  deriving DecidableEq, Repr

/-- `if "force_chunked" in kwargs: ...` — accept a value equal (under
Python `==`) to `True` or `False`, else `ValueError`. -/
def checkForceChunked (k : Kwargs) (c : HandlerConfig) :
    Except InitError HandlerConfig :=
  match k.force_chunked with
  | none => .ok c
  | some v =>
    if pyEq v (.bool true) || pyEq v (.bool false) then
      .ok { c with force_chunked := v }
    else .error .invalidForceChunked

/-- `if "chunk_max_size" in kwargs: ...` — accept a positive value,
else `ValueError`. -/
def checkChunkMaxSize (k : Kwargs) (c : HandlerConfig) :
    Except InitError HandlerConfig :=
  match k.chunk_max_size with
  | none => .ok c
  | some v =>
    if v > 0 then .ok { c with chunk_max_size := v }
    else .error .invalidChunkMaxSize

/-- `if "chunk_read_timeout" in kwargs: ...` — accept a positive value,
else `ValueError`. -/
def checkChunkReadTimeout (k : Kwargs) (c : HandlerConfig) :
    Except InitError HandlerConfig :=
  match k.chunk_read_timeout with
  | none => .ok c
  | some v =>
    if v > 0 then .ok { c with chunk_read_timeout := v }
    else .error .invalidChunkReadTimeout

/-- `ChunkableHTTPRequestHandler.__init__`: run the three kwargs checks
in source order on the class-attribute defaults.  Keys other than the
three checked ones are never read. -/
def initHandler (k : Kwargs) : Except InitError HandlerConfig :=
  match checkForceChunked k {} with
  | .error e => .error e
  | .ok c1 =>
    match checkChunkMaxSize k c1 with
    | .error e => .error e
    | .ok c2 => checkChunkReadTimeout k c2

/-- ASCII string literal to byte list. -/
def asciiBytes (s : String) : List Nat := s.data.map Char.toNat

/-! ### Evaluation lemmas for the decoder loops -/

theorem readChunksLoop_step (H : Nat) (maxSize total : Int)
    (contents : List (List Nat)) (s line s1 : List Nat)
    (hrl : readline H s = (line, s1)) :
    readChunksLoop H maxSize total contents s =
      if line = crlf then .ok (contents, s1)
      else if line = [] then .error .connectionReset
      else
        match pyIntHex (splitSemi line) with
        | none => .error .malformedChunkSize
        | some sz =>
          if sz = 0 then .ok (contents, s1)
          else if total + sz > maxSize then .error .bodyTooLarge
          else readChunksLoop H maxSize (total + sz)
                 (contents ++ [(readPy sz s1).1])
                 ((readPy 2 (readPy sz s1).2).2) := by
  rw [readChunksLoop, hrl]
  rfl

theorem skipFooter_step (H : Nat) (s line s1 : List Nat)
    (hrl : readline H s = (line, s1)) :
    skipFooter H s =
      if line = crlf then .ok s1
      else if line = [] then .error .connectionReset
      else skipFooter H s1 := by
  rw [skipFooter, hrl]
  rfl

/-! ### Properties of `hexStr` and the hexadecimal parser -/

theorem hexStr_eq (n : Nat) :
    hexStr n = if n < 16 then [hexDigitChar n]
      else hexStr (n / 16) ++ [hexDigitChar (n % 16)] := by
  rw [hexStr]

theorem hexStr_ne_nil (n : Nat) : hexStr n ≠ [] := by
  rw [hexStr_eq]
  split <;> simp

theorem isHexDigitByte_hexDigitChar {d : Nat} (hd : d < 16) :
    isHexDigitByte (hexDigitChar d) = true := by
  unfold hexDigitChar isHexDigitByte
  split <;> simp <;> omega

theorem hexDigitVal_hexDigitChar {d : Nat} (hd : d < 16) :
    hexDigitVal (hexDigitChar d) = d := by
  unfold hexDigitChar hexDigitVal
  split
  · split <;> omega
  · split
    · omega
    · split <;> omega

theorem hexStr_all_hex (n : Nat) : ∀ b ∈ hexStr n, isHexDigitByte b = true := by
  induction n using Nat.strong_induction_on with
  | _ n ih =>
    rw [hexStr_eq]
    split
    · intro b hb
      simp only [List.mem_singleton] at hb
      subst hb
      exact isHexDigitByte_hexDigitChar (by omega)
    · intro b hb
      rename_i hn
      rw [List.mem_append] at hb
      rcases hb with hb | hb
      · exact ih (n / 16) (Nat.div_lt_self (by omega) (by omega)) b hb
      · simp only [List.mem_singleton] at hb
        subst hb
        exact isHexDigitByte_hexDigitChar (Nat.mod_lt _ (by omega))

theorem hexLen_pos (n : Nat) : 0 < (hexStr n).length :=
  List.length_pos.mpr (hexStr_ne_nil n)

theorem hexLen_le : ∀ k n : Nat, 1 ≤ k → n < 16 ^ k → (hexStr n).length ≤ k := by
  intro k
  induction k with
  | zero => omega
  | succ k ih =>
    intro n _ h
    rw [hexStr_eq]
    split
    · simp
    · rename_i hn
      have hk1 : 1 ≤ k := by
        rcases Nat.eq_zero_or_pos k with hk0 | hk0
        · subst hk0
          simp at h
          omega
        · omega
      have hdiv : n / 16 < 16 ^ k := by
        rw [Nat.div_lt_iff_lt_mul (by omega)]
        calc n < 16 ^ (k + 1) := h
          _ = 16 ^ k * 16 := by rw [pow_succ]
      have := ih (n / 16) hk1 hdiv
      simp only [List.length_append, List.length_singleton]
      omega

theorem hexStr_foldl_general (n : Nat) :
    ∀ a : Nat, (hexStr n).foldl (fun x b => 16 * x + hexDigitVal b) a
      = a * 16 ^ (hexStr n).length + n := by
  induction n using Nat.strong_induction_on with
  | _ n ih =>
    intro a
    rw [hexStr_eq]
    split
    · rename_i hn
      simp only [List.foldl_cons, List.foldl_nil, List.length_singleton, pow_one]
      rw [hexDigitVal_hexDigitChar hn]
      ring
    · rename_i hn
      rw [List.foldl_append]
      rw [ih (n / 16) (Nat.div_lt_self (by omega) (by omega)) a]
      simp only [List.foldl_cons, List.foldl_nil, List.length_append,
        List.length_singleton]
      rw [hexDigitVal_hexDigitChar (Nat.mod_lt _ (by omega))]
      have h := Nat.div_add_mod n 16
      calc 16 * (a * 16 ^ (hexStr (n / 16)).length + n / 16) + n % 16
          = a * (16 ^ (hexStr (n / 16)).length * 16)
            + (16 * (n / 16) + n % 16) := by ring
        _ = a * 16 ^ ((hexStr (n / 16)).length + 1) + n := by
            rw [h, pow_succ]

theorem hexStr_foldl (n : Nat) :
    (hexStr n).foldl (fun x b => 16 * x + hexDigitVal b) 0 = n := by
  have := hexStr_foldl_general n 0
  simpa using this

theorem isHexDigitByte_props {b : Nat} (h : isHexDigitByte b = true) :
    isSpaceByte b = false ∧ b ≠ 59 ∧ b ≠ 45 ∧ b ≠ 43 ∧ b ≠ 120 ∧ b ≠ 88
      ∧ b ≠ 10 := by
  unfold isHexDigitByte at h
  unfold isSpaceByte
  simp only [Bool.or_eq_true, Bool.and_eq_true, decide_eq_true_eq] at h
  simp only [Bool.or_eq_false_iff, decide_eq_false_iff_not]
  omega

theorem dropWhile_space_of_all_hex {xs : List Nat}
    (h : ∀ b ∈ xs, isHexDigitByte b = true) :
    xs.dropWhile isSpaceByte = xs := by
  cases xs with
  | nil => rfl
  | cons x t =>
    have hx : isSpaceByte x = false :=
      (isHexDigitByte_props (h x (by simp))).1
    simp [List.dropWhile_cons, hx]

theorem stripBytes_hex_crlf (L : Nat) :
    stripBytes (hexStr L ++ crlf) = hexStr L := by
  unfold stripBytes
  have hall := hexStr_all_hex L
  have h1 : (hexStr L ++ crlf).dropWhile isSpaceByte = hexStr L ++ crlf := by
    cases hx : hexStr L with
    | nil => exact absurd hx (hexStr_ne_nil L)
    | cons a t =>
      have ha : isSpaceByte a = false := by
        apply (isHexDigitByte_props (hall a _)).1
        rw [hx]
        simp
      simp [List.dropWhile_cons, ha]
  rw [h1]
  have h2 : (hexStr L ++ crlf).reverse
      = 10 :: 13 :: (hexStr L).reverse := by
    simp [crlf]
  rw [h2]
  have h10 : isSpaceByte 10 = true := by decide
  have h13 : isSpaceByte 13 = true := by decide
  simp only [List.dropWhile_cons, h10, h13, if_pos]
  rw [dropWhile_space_of_all_hex (by intro b hb; exact hall b (List.mem_reverse.mp hb))]
  simp

theorem stripHexPrefix_of_all_hex {s : List Nat}
    (h : ∀ b ∈ s, isHexDigitByte b = true) : stripHexPrefix s = s := by
  unfold stripHexPrefix
  cases s with
  | nil => rfl
  | cons a t =>
    cases t with
    | nil =>
      rw [if_neg]
      rintro ⟨-, hor⟩
      rcases hor with h1 | h1 <;> simp at h1
    | cons x rest =>
      have hx : x ≠ 120 ∧ x ≠ 88 := by
        have := isHexDigitByte_props (h x (by simp))
        exact ⟨this.2.2.2.2.1, this.2.2.2.2.2.1⟩
      rw [if_neg]
      rintro ⟨-, hor⟩
      rcases hor with h1 | h1 <;>
        simp only [List.tail_cons, List.head?_cons, Option.some.injEq] at h1
      · exact hx.1 h1
      · exact hx.2 h1

theorem parseHexDigits_hexStr (L : Nat) : parseHexDigits (hexStr L) = some L := by
  unfold parseHexDigits
  rw [stripHexPrefix_of_all_hex (hexStr_all_hex L)]
  rw [if_pos]
  · rw [hexStr_foldl]
  · refine ⟨hexStr_ne_nil L, ?_⟩
    rw [List.all_eq_true]
    intro b hb
    exact hexStr_all_hex L b hb

theorem pyIntHex_hexStr_crlf (L : Nat) :
    pyIntHex (hexStr L ++ crlf) = some (L : Int) := by
  unfold pyIntHex
  rw [stripBytes_hex_crlf]
  cases hx : hexStr L with
  | nil => exact absurd hx (hexStr_ne_nil L)
  | cons a t =>
    have ha := isHexDigitByte_props (by
      apply hexStr_all_hex L a
      rw [hx]
      simp)
    have h45 : ¬((a :: t).head? = some 45) := by
      simp only [List.head?_cons, Option.some.injEq]
      exact ha.2.2.1
    have h43 : ¬((a :: t).head? = some 43) := by
      simp only [List.head?_cons, Option.some.injEq]
      exact ha.2.2.2.1
    rw [if_neg h45, if_neg h43, if_neg (by simp : ¬(a :: t = []))]
    rw [← hx, parseHexDigits_hexStr]
    rfl

theorem splitSemi_of_no_semi {s : List Nat} (h : ∀ b ∈ s, b ≠ 59) :
    splitSemi s = s := by
  unfold splitSemi
  induction s with
  | nil => rfl
  | cons a t ih =>
    have ha : a ≠ 59 := h a (by simp)
    simp only [List.takeWhile_cons, decide_eq_true_eq]
    rw [if_pos ha]
    rw [ih (fun b hb => h b (by simp [hb]))]

theorem readline_exact (H : Nat) (l r : List Nat) (hnl : 10 ∉ l)
    (hlen : l.length + 1 ≤ H) :
    readline H (l ++ 10 :: r) = (l ++ [10], r) := by
  induction l generalizing H with
  | nil =>
    cases H with
    | zero => omega
    | succ n => simp [readline]
  | cons b t ih =>
    cases H with
    | zero => simp at hlen
    | succ n =>
      have hb : b ≠ 10 := by
        intro h
        exact hnl (by simp [h])
      simp only [List.cons_append, readline, if_neg hb]
      have ht : 10 ∉ t := fun h => hnl (by simp [h])
      have hlt : t.length + 1 ≤ n := by
        simp at hlen
        omega
      simp only [List.append_eq]
      rw [ih n ht hlt]

/-! ### Specialised step lemmas for the chunk loop -/

theorem readChunksLoop_stop_crlf (H : Nat) (maxSize total : Int)
    (contents : List (List Nat)) (s s1 : List Nat)
    (hrl : readline H s = (crlf, s1)) :
    readChunksLoop H maxSize total contents s = .ok (contents, s1) := by
  rw [readChunksLoop_step H maxSize total contents s crlf s1 hrl, if_pos rfl]

theorem readChunksLoop_reset (H : Nat) (maxSize total : Int)
    (contents : List (List Nat)) (s s1 : List Nat)
    (hrl : readline H s = ([], s1)) :
    readChunksLoop H maxSize total contents s = .error .connectionReset := by
  rw [readChunksLoop_step H maxSize total contents s [] s1 hrl,
    if_neg (by simp [crlf]), if_pos rfl]

theorem readChunksLoop_malformed (H : Nat) (maxSize total : Int)
    (contents : List (List Nat)) (s line s1 : List Nat)
    (hrl : readline H s = (line, s1)) (hcr : line ≠ crlf) (hnl : line ≠ [])
    (hparse : pyIntHex (splitSemi line) = none) :
    readChunksLoop H maxSize total contents s = .error .malformedChunkSize := by
  rw [readChunksLoop_step H maxSize total contents s line s1 hrl,
    if_neg hcr, if_neg hnl, hparse]

theorem readChunksLoop_stop_zero (H : Nat) (maxSize total : Int)
    (contents : List (List Nat)) (s line s1 : List Nat)
    (hrl : readline H s = (line, s1)) (hcr : line ≠ crlf) (hnl : line ≠ [])
    (hparse : pyIntHex (splitSemi line) = some 0) :
    readChunksLoop H maxSize total contents s = .ok (contents, s1) := by
  rw [readChunksLoop_step H maxSize total contents s line s1 hrl,
    if_neg hcr, if_neg hnl, hparse]
  rfl

theorem readChunksLoop_tooLarge (H : Nat) (maxSize total : Int)
    (contents : List (List Nat)) (s line s1 : List Nat) (sz : Int)
    (hrl : readline H s = (line, s1)) (hcr : line ≠ crlf) (hnl : line ≠ [])
    (hparse : pyIntHex (splitSemi line) = some sz) (hsz : sz ≠ 0)
    (hlarge : total + sz > maxSize) :
    readChunksLoop H maxSize total contents s = .error .bodyTooLarge := by
  rw [readChunksLoop_step H maxSize total contents s line s1 hrl,
    if_neg hcr, if_neg hnl, hparse]
  simp only [if_neg hsz, if_pos hlarge]

theorem readChunksLoop_chunk (H : Nat) (maxSize total : Int)
    (contents : List (List Nat)) (s line s1 : List Nat) (sz : Int)
    (hrl : readline H s = (line, s1)) (hcr : line ≠ crlf) (hnl : line ≠ [])
    (hparse : pyIntHex (splitSemi line) = some sz) (hsz : sz ≠ 0)
    (hok : ¬(total + sz > maxSize)) :
    readChunksLoop H maxSize total contents s
      = readChunksLoop H maxSize (total + sz)
          (contents ++ [(readPy sz s1).1]) ((readPy 2 (readPy sz s1).2).2) := by
  rw [readChunksLoop_step H maxSize total contents s line s1 hrl,
    if_neg hcr, if_neg hnl, hparse]
  simp only [if_neg hsz, if_neg hok]

theorem skipFooter_stop (H : Nat) (s s1 : List Nat)
    (hrl : readline H s = (crlf, s1)) : skipFooter H s = .ok s1 := by
  rw [skipFooter_step H s crlf s1 hrl, if_pos rfl]

theorem skipFooter_reset (H : Nat) (s s1 : List Nat)
    (hrl : readline H s = ([], s1)) :
    skipFooter H s = .error .connectionReset := by
  rw [skipFooter_step H s [] s1 hrl, if_neg (by simp [crlf]), if_pos rfl]

theorem skipFooter_next (H : Nat) (s line s1 : List Nat)
    (hrl : readline H s = (line, s1)) (hcr : line ≠ crlf) (hnl : line ≠ []) :
    skipFooter H s = skipFooter H s1 := by
  rw [skipFooter_step H s line s1 hrl, if_neg hcr, if_neg hnl]

/-! ### Consuming encoder output -/

theorem readline_frame (H : Nat) (f rest : List Nat)
    (hfit : (hexStr f.length).length + 2 ≤ H) :
    readline H (frameFragment f ++ rest)
      = (hexStr f.length ++ crlf, f ++ (crlf ++ rest)) := by
  have hshape : frameFragment f ++ rest
      = (hexStr f.length ++ [13]) ++ 10 :: (f ++ (crlf ++ rest)) := by
    simp [frameFragment, crlf]
  rw [hshape]
  have hno10 : 10 ∉ hexStr f.length ++ [13] := by
    intro hmem
    rw [List.mem_append] at hmem
    rcases hmem with hm | hm
    · exact absurd rfl (isHexDigitByte_props (hexStr_all_hex _ _ hm)).2.2.2.2.2.2
    · simp at hm
  have hlen : (hexStr f.length ++ [13]).length + 1 ≤ H := by
    simp only [List.length_append, List.length_singleton]
    omega
  rw [readline_exact H _ _ hno10 hlen]
  simp [crlf]

theorem readChunksLoop_frame (H : Nat) (maxSize total : Int)
    (contents : List (List Nat)) (f rest : List Nat) (hf : f ≠ [])
    (hfit : (hexStr f.length).length + 2 ≤ H)
    (hbound : total + (f.length : Int) ≤ maxSize) :
    readChunksLoop H maxSize total contents (frameFragment f ++ rest)
      = readChunksLoop H maxSize (total + (f.length : Int))
          (contents ++ [f]) rest := by
  have hlen_pos : 0 < f.length := List.length_pos.mpr hf
  have hncrlf : hexStr f.length ++ crlf ≠ crlf := by
    intro h
    have hlen := congrArg List.length h
    simp only [List.length_append, crlf, List.length_cons, List.length_nil] at hlen
    have := hexLen_pos f.length
    omega
  have hnnil : hexStr f.length ++ crlf ≠ [] := by simp [crlf]
  have hsplit : splitSemi (hexStr f.length ++ crlf) = hexStr f.length ++ crlf := by
    apply splitSemi_of_no_semi
    intro b hb
    rw [List.mem_append] at hb
    rcases hb with hm | hm
    · exact (isHexDigitByte_props (hexStr_all_hex _ _ hm)).2.1
    · fin_cases hm <;> decide
  have hparse : pyIntHex (splitSemi (hexStr f.length ++ crlf))
      = some ((f.length : Int)) := by
    rw [hsplit, pyIntHex_hexStr_crlf]
  have hsz : ((f.length : Int)) ≠ 0 := by
    simp only [ne_eq, Int.natCast_eq_zero]
    omega
  have hok : ¬(total + (f.length : Int) > maxSize) := by omega
  rw [readChunksLoop_chunk H maxSize total contents _ _ _ _
    (readline_frame H f rest hfit) hncrlf hnnil hparse hsz hok]
  have hrp1 : readPy ((f.length : Int)) (f ++ (crlf ++ rest))
      = (f, crlf ++ rest) := by
    unfold readPy
    rw [if_neg (by omega)]
    rw [Int.toNat_natCast]
    rw [List.take_left, List.drop_left]
  rw [hrp1]
  have hrp2 : (readPy 2 (crlf ++ rest)).2 = rest := by
    unfold readPy
    rw [if_neg (by omega)]
    simp [crlf]
  rw [hrp2]

theorem readChunksLoop_lastChunk (H : Nat) (maxSize total : Int)
    (contents : List (List Nat)) (rest : List Nat) (hH : 3 ≤ H) :
    readChunksLoop H maxSize total contents ((48 :: crlf) ++ rest)
      = .ok (contents, rest) := by
  have hrl : readline H ((48 :: crlf) ++ rest) = (48 :: crlf, rest) := by
    have hshape : (48 :: crlf) ++ rest = [48, 13] ++ 10 :: rest := by
      simp [crlf]
    rw [hshape]
    rw [readline_exact H [48, 13] rest (by decide) (by simp; omega)]
    simp [crlf]
  apply readChunksLoop_stop_zero H maxSize total contents _ _ _ hrl
  · simp [crlf]
  · simp
  · have : splitSemi (48 :: crlf) = 48 :: crlf := by
      apply splitSemi_of_no_semi
      intro b hb
      fin_cases hb <;> decide
    rw [this]
    have h0 : (48 : Nat) :: crlf = hexStr 0 ++ crlf := by
      rw [hexStr_eq]
      simp [hexDigitChar]
    rw [h0, pyIntHex_hexStr_crlf]
    rfl

theorem skipFooter_crlf (H : Nat) (rest : List Nat) (hH : 2 ≤ H) :
    skipFooter H (crlf ++ rest) = .ok rest := by
  have hrl : readline H (crlf ++ rest) = (crlf, rest) := by
    have hshape : crlf ++ rest = [13] ++ 10 :: rest := by simp [crlf]
    rw [hshape]
    rw [readline_exact H [13] rest (by decide) (by simp; omega)]
    simp [crlf]
  exact skipFooter_stop H _ rest hrl

/-! ### Properties of the encoder fragment slicing -/

theorem fragments_nil (S : Nat) : fragments S [] = [] := by
  simp [fragments]

theorem fragments_cons (S : Nat) (c : List Nat) (hS : 0 < S) (hc : c ≠ []) :
    fragments S c = c.take S :: fragments S (c.drop S) := by
  unfold fragments
  have hL : 0 < c.length := List.length_pos.mpr hc
  have hlen_drop : (c.drop S).length = c.length - S := by
    simp [List.length_drop]
  have hbl : c.length / S + (if c.length % S ≠ 0 then 1 else 0)
      = ((c.length - S) / S + (if (c.length - S) % S ≠ 0 then 1 else 0)) + 1 := by
    rcases le_or_lt c.length S with hle | hlt
    · have h0 : c.length - S = 0 := by omega
      rw [h0]
      simp only [Nat.zero_div, Nat.zero_mod]
      rcases Nat.lt_or_ge c.length S with hlt2 | hge
      · rw [Nat.div_eq_of_lt hlt2, Nat.mod_eq_of_lt hlt2]
        have hne : c.length ≠ 0 := by omega
        simp [hne]
      · have hLS : c.length = S := by omega
        rw [hLS, Nat.div_self hS, Nat.mod_self]
        simp
    · have hSle : S ≤ c.length := le_of_lt hlt
      rw [Nat.div_eq_sub_div hS hSle]
      have hmod : (c.length - S) % S = c.length % S := by
        have h := Nat.sub_mul_mod (x := c.length) (n := S) (k := 1) (by omega)
        simpa using h
      rw [hmod]
      by_cases h : c.length % S = 0 <;> simp [h] <;> omega
  rw [hbl, hlen_drop, List.range_succ_eq_map, List.map_cons]
  congr 1
  · simp
  rw [List.map_map]
  apply List.map_congr_left
  intro x hx
  simp only [Function.comp_apply]
  rw [List.drop_drop]
  congr 2
  rw [Nat.succ_mul]
  omega

theorem flatten_fragments_aux (S : Nat) (hS : 0 < S) :
    ∀ n (c : List Nat), c.length ≤ n → (fragments S c).flatten = c := by
  intro n
  induction n with
  | zero =>
    intro c hc
    have h0 : c = [] := by
      cases c with
      | nil => rfl
      | cons a t => simp at hc
    rw [h0, fragments_nil]
    rfl
  | succ n ih =>
    intro c hc
    by_cases hc0 : c = []
    · rw [hc0, fragments_nil]
      rfl
    · rw [fragments_cons S c hS hc0]
      rw [List.flatten_cons]
      rw [ih (c.drop S) (by
        have : 0 < c.length := List.length_pos.mpr hc0
        simp only [List.length_drop]
        omega)]
      exact List.take_append_drop S c

theorem flatten_fragments (S : Nat) (hS : 0 < S) (c : List Nat) :
    (fragments S c).flatten = c :=
  flatten_fragments_aux S hS c.length c le_rfl

theorem fragments_sum_length (S : Nat) (hS : 0 < S) (c : List Nat) :
    ((fragments S c).map List.length).sum = c.length := by
  rw [← List.length_flatten, flatten_fragments S hS]

theorem fragments_mem (S : Nat) (hS : 0 < S) (c f : List Nat)
    (hf : f ∈ fragments S c) : f ≠ [] ∧ f.length ≤ c.length := by
  unfold fragments at hf
  rw [List.mem_map] at hf
  obtain ⟨x, hx, rfl⟩ := hf
  rw [List.mem_range] at hx
  have hdm := Nat.div_add_mod c.length S
  rw [Nat.mul_comm] at hdm
  have hxS : x * S < c.length := by
    by_cases hmod : c.length % S = 0
    · have hx' : x + 1 ≤ c.length / S := by
        rw [hmod] at hx
        simp at hx
        omega
      have h1 : (x + 1) * S ≤ c.length / S * S :=
        Nat.mul_le_mul_right S hx'
      have h2 : (x + 1) * S = x * S + S := by
        rw [Nat.succ_mul]
      omega
    · have hx' : x ≤ c.length / S := by
        rw [if_pos hmod] at hx
        omega
      have h1 : x * S ≤ c.length / S * S := Nat.mul_le_mul_right S hx'
      have hr : 0 < c.length % S := Nat.pos_of_ne_zero hmod
      omega
  constructor
  · intro hnil
    have := congrArg List.length hnil
    simp only [List.length_take, List.length_drop, List.length_nil] at this
    omega
  · simp only [List.length_take, List.length_drop]
    omega

/-! ### Decoding a whole framed stream -/

theorem readChunksLoop_frames (H : Nat) (maxSize : Int)
    (fs : List (List Nat)) :
    ∀ (total : Int) (contents : List (List Nat)) (rest : List Nat),
    (∀ f ∈ fs, f ≠ []) →
    (∀ f ∈ fs, (hexStr f.length).length + 2 ≤ H) →
    total + ((fs.map List.length).sum : Int) ≤ maxSize →
    readChunksLoop H maxSize total contents
        ((fs.map frameFragment).flatten ++ rest)
      = readChunksLoop H maxSize (total + ((fs.map List.length).sum : Int))
          (contents ++ fs) rest := by
  induction fs with
  | nil =>
    intro total contents rest _ _ _
    simp
  | cons f fs ih =>
    intro total contents rest hne hfit hbound
    have hsum : ((f :: fs).map List.length).sum
        = f.length + (fs.map List.length).sum := by simp
    have hfs_sum_nonneg : (0 : Int) ≤ ((fs.map List.length).sum : Int) := by
      positivity
    simp only [List.map_cons, List.flatten_cons, List.append_assoc]
    rw [hsum, Nat.cast_add] at hbound
    rw [readChunksLoop_frame H maxSize total contents f _
      (hne f (by simp))
      (hfit f (by simp))
      (by omega)]
    rw [ih (total + (f.length : Int)) (contents ++ [f]) rest
      (fun g hg => hne g (by simp [hg]))
      (fun g hg => hfit g (by simp [hg]))
      (by omega)]
    congr 1
    · rw [List.sum_cons, Nat.cast_add]
      ring
    · simp

theorem flattenFrames_eq (S : Nat) (msgs : List (List Nat)) :
    (msgs.map (fun c => ((fragments S c).map frameFragment).flatten)).flatten
      = (((msgs.map (fragments S)).flatten.map frameFragment).flatten) := by
  induction msgs with
  | nil => rfl
  | cons c rest ih => simp [ih]

theorem sendChunked_shape (S : Nat) (msgs : List (List Nat)) :
    sendChunked S msgs
      = (((msgs.map (fragments S)).flatten.map frameFragment).flatten)
        ++ ((48 :: crlf) ++ crlf) := by
  unfold sendChunked
  rw [flattenFrames_eq]
  simp

theorem allFrames_sum (S : Nat) (hS : 0 < S) (msgs : List (List Nat)) :
    ((msgs.map (fragments S)).flatten.map List.length).sum
      = (msgs.map List.length).sum := by
  induction msgs with
  | nil => rfl
  | cons c rest ih =>
    simp only [List.map_cons, List.flatten_cons, List.map_append,
      List.sum_append, List.sum_cons]
    rw [fragments_sum_length S hS, ih]

theorem allFrames_flatten (S : Nat) (hS : 0 < S) (msgs : List (List Nat)) :
    ((msgs.map (fragments S)).flatten).flatten = msgs.flatten := by
  induction msgs with
  | nil => rfl
  | cons c rest ih => simp [flatten_fragments S hS, ih]

theorem allFrames_mem (S : Nat) (msgs : List (List Nat)) (f : List Nat)
    (hf : f ∈ (msgs.map (fragments S)).flatten) :
    ∃ c ∈ msgs, f ∈ fragments S c := by
  rw [List.mem_flatten] at hf
  obtain ⟨l, hl, hfl⟩ := hf
  rw [List.mem_map] at hl
  obtain ⟨c, hc, rfl⟩ := hl
  exact ⟨c, hc, hfl⟩

/-- C1: Round-trip — for every sequence of byte buffers and every positive
`chunk_max_size` S, encoding the sequence with `send_chunked` and then
decoding the resulting byte stream with `__read_chunked`, with
`max_total_size` at least the total payload length (and the fixed
128-byte header-line cap large enough for the hexadecimal size lines,
which it is for any realistic buffer), yields a body equal to the
concatenation of the original buffers in their original order,
regardless of S. -/
theorem C1_roundTrip (S H : Nat) (maxSize : Int) (msgs : List (List Nat))
    (hS : 0 < S) (hH : 3 ≤ H)
    (hfit : ∀ c ∈ msgs, c.length < 16 ^ (H - 2))
    (hmax : ((msgs.map List.length).sum : Int) ≤ maxSize) :
    ∃ chunks, decodeChunked H maxSize (sendChunked S msgs) = .ok chunks
      ∧ chunks.flatten = msgs.flatten := by
  refine ⟨(msgs.map (fragments S)).flatten, ?_, allFrames_flatten S hS msgs⟩
  have hne : ∀ f ∈ (msgs.map (fragments S)).flatten, f ≠ [] := by
    intro f hf
    obtain ⟨c, _, hfc⟩ := allFrames_mem S msgs f hf
    exact (fragments_mem S hS c f hfc).1
  have hfitf : ∀ f ∈ (msgs.map (fragments S)).flatten,
      (hexStr f.length).length + 2 ≤ H := by
    intro f hf
    obtain ⟨c, hc, hfc⟩ := allFrames_mem S msgs f hf
    have hle : f.length ≤ c.length := (fragments_mem S hS c f hfc).2
    have hlt : f.length < 16 ^ (H - 2) := lt_of_le_of_lt hle (hfit c hc)
    have := hexLen_le (H - 2) f.length (by omega) hlt
    omega
  have hbound : (0 : Int)
      + (((msgs.map (fragments S)).flatten.map List.length).sum : Int)
      ≤ maxSize := by
    rw [allFrames_sum S hS]
    omega
  have h1 : readChunksLoop H maxSize 0 [] (sendChunked S msgs)
      = .ok ((msgs.map (fragments S)).flatten, crlf) := by
    rw [sendChunked_shape]
    rw [readChunksLoop_frames H maxSize _ 0 [] _ hne hfitf hbound]
    rw [readChunksLoop_lastChunk H maxSize _ _ crlf hH]
    simp
  have h2 : skipFooter H crlf = .ok [] := by
    have h := skipFooter_crlf H [] (by omega)
    simpa using h
  unfold decodeChunked
  rw [h1]
  simp only [h2]

/-! ### C2: fragment count and sizes -/

theorem bl_eq_ceil (L S : Nat) (hS : 0 < S) :
    L / S + (if L % S ≠ 0 then 1 else 0) = (L + S - 1) / S := by
  have hdm := Nat.div_add_mod L S
  by_cases hmod : L % S = 0
  · have hL : L + S - 1 = (S - 1) + S * (L / S) := by omega
    rw [hL, Nat.add_mul_div_left _ _ hS,
      Nat.div_eq_of_lt (show S - 1 < S by omega)]
    rw [if_neg (by omega : ¬(L % S ≠ 0))]
    omega
  · have hr : 0 < L % S := Nat.pos_of_ne_zero hmod
    have hrS : L % S < S := Nat.mod_lt _ hS
    have hsucc : S * (L / S + 1) = S * (L / S) + S := by
      rw [Nat.mul_succ]
    have hL : L + S - 1 = (L % S - 1) + S * (L / S + 1) := by omega
    rw [hL, Nat.add_mul_div_left _ _ hS,
      Nat.div_eq_of_lt (show L % S - 1 < S by omega)]
    rw [if_pos hmod]
    omega

/-- C2: for every input buffer of length L and every positive max
fragment size S, `send_chunked` emits exactly `ceil(L/S)` wire fragments
for that buffer, in order, the sum of the emitted fragment lengths
equals L, and a zero-length buffer yields zero fragments. -/
theorem C2_fragmentCount (S : Nat) (c : List Nat) (hS : 0 < S) :
    (fragments S c).length = (c.length + S - 1) / S
      ∧ ((fragments S c).map List.length).sum = c.length
      ∧ (c = [] → fragments S c = []) := by
  refine ⟨?_, fragments_sum_length S hS c, ?_⟩
  · have hlen : (fragments S c).length
        = c.length / S + (if c.length % S ≠ 0 then 1 else 0) := by
      unfold fragments
      simp
    rw [hlen, bl_eq_ceil c.length S hS]
  · intro h
    rw [h, fragments_nil]

/-- C2 witness: a buffer of 5 bytes with S = 3 yields 2 fragments whose
lengths sum to 5, and the empty buffer yields no fragments. -/
theorem C2_fragmentCount_witness :
    (fragments 3 [104, 101, 108, 108, 111]).length = (5 + 3 - 1) / 3
      ∧ ((fragments 3 [104, 101, 108, 108, 111]).map List.length).sum = 5
      ∧ ([] = ([] : List Nat) → fragments 3 [] = []) := by
  have h := C2_fragmentCount 3 [104, 101, 108, 108, 111] (by decide)
  exact ⟨h.1, h.2.1, fun _ => (C2_fragmentCount 3 [] (by decide)).2.2 rfl⟩

/-! ### C3: the running-total cap -/

theorem readline_nil (H : Nat) : readline H [] = ([], []) := by
  cases H <;> rfl

theorem readChunksLoop_ok_bound_aux (H : Nat) (maxSize : Int) :
    ∀ n (s : List Nat), s.length ≤ n →
    ∀ (total : Int) (contents body : List (List Nat)) (rest : List Nat),
    ((contents.map List.length).sum : Int) ≤ total → total ≤ maxSize →
    readChunksLoop H maxSize total contents s = .ok (body, rest) →
    ((body.map List.length).sum : Int) ≤ maxSize := by
  intro n
  induction n with
  | zero =>
    intro s hsn total contents body rest _ _ hok
    have hs : s = [] := List.eq_nil_of_length_eq_zero (by omega)
    rw [hs, readChunksLoop_reset H maxSize total contents [] []
      (readline_nil H)] at hok
    cases hok
  | succ n ih =>
    intro s hsn total contents body rest hinv htot hok
    rcases hrl : readline H s with ⟨line, s1⟩
    by_cases hcr : line = crlf
    · rw [hcr] at hrl
      rw [readChunksLoop_stop_crlf H maxSize total contents s s1 hrl] at hok
      simp only [Except.ok.injEq, Prod.mk.injEq] at hok
      rw [← hok.1]
      omega
    · by_cases hnl : line = []
      · rw [hnl] at hrl
        rw [readChunksLoop_reset H maxSize total contents s s1 hrl] at hok
        cases hok
      · have hs1len : s1.length < s.length := by
          have h := readline_snd_length_lt H s (by rw [hrl]; exact hnl)
          rw [hrl] at h
          exact h
        cases hparse : pyIntHex (splitSemi line) with
        | none =>
          rw [readChunksLoop_malformed H maxSize total contents s line s1
            hrl hcr hnl hparse] at hok
          cases hok
        | some sz =>
          by_cases hsz : sz = 0
          · rw [hsz] at hparse
            rw [readChunksLoop_stop_zero H maxSize total contents s line s1
              hrl hcr hnl hparse] at hok
            simp only [Except.ok.injEq, Prod.mk.injEq] at hok
            rw [← hok.1]
            omega
          · by_cases hlarge : total + sz > maxSize
            · rw [readChunksLoop_tooLarge H maxSize total contents s line s1
                sz hrl hcr hnl hparse hsz hlarge] at hok
              cases hok
            · rw [readChunksLoop_chunk H maxSize total contents s line s1
                sz hrl hcr hnl hparse hsz hlarge] at hok
              by_cases hneg : sz < 0
              · have hrp : readPy sz s1 = (s1, []) := by
                  unfold readPy
                  rw [if_pos hneg]
                have hrp2 : (readPy 2 ([] : List Nat)).2 = [] := by
                  unfold readPy
                  simp
                rw [hrp] at hok
                rw [hrp2] at hok
                rw [readChunksLoop_reset H maxSize (total + sz) _ [] []
                  (readline_nil H)] at hok
                cases hok
              · have hpos : 0 < sz := by omega
                have hchunk_le : (((readPy sz s1).1.length : Int)) ≤ sz := by
                  unfold readPy
                  rw [if_neg (by omega)]
                  simp only [List.length_take]
                  have h1 : min sz.toNat s1.length ≤ sz.toNat :=
                    Nat.min_le_left _ _
                  have h2 : ((sz.toNat : Int)) = sz :=
                    Int.toNat_of_nonneg (by omega)
                  omega
                have hinv2 : (((contents ++ [(readPy sz s1).1]).map
                    List.length).sum : Int) ≤ total + sz := by
                  simp only [List.map_append, List.sum_append, List.map_cons,
                    List.sum_cons, List.map_nil, List.sum_nil, Nat.cast_add]
                  push_cast
                  push_cast at hinv
                  omega
                have hs3len : ((readPy 2 (readPy sz s1).2).2).length ≤ n := by
                  have h1 := readPy_snd_length_le sz s1
                  have h2 := readPy_snd_length_le 2 (readPy sz s1).2
                  omega
                exact ih _ hs3len (total + sz) _ body rest hinv2
                  (by omega) hok

/-- C3: for every decode in which the running total of chunk sizes
exceeds `max_total_size`, the loop fails with the too-large `ValueError`
and aborts; consequently a successful decode never hands back a body
larger than `max_total_size`, so accumulated memory stays bounded. -/
theorem C3_bodyTooLarge (H : Nat) (maxSize : Int) (s : List Nat) :
    (∀ (total : Int) (contents : List (List Nat)) (line s1 : List Nat)
        (sz : Int),
      readline H s = (line, s1) → line ≠ crlf → line ≠ [] →
      pyIntHex (splitSemi line) = some sz → sz ≠ 0 →
      total + sz > maxSize →
      readChunksLoop H maxSize total contents s = .error .bodyTooLarge)
    ∧ (0 ≤ maxSize → ∀ body, decodeChunked H maxSize s = .ok body →
      ((body.map List.length).sum : Int) ≤ maxSize) := by
  constructor
  · intro total contents line s1 sz hrl hcr hnl hparse hsz hlarge
    exact readChunksLoop_tooLarge H maxSize total contents s line s1 sz
      hrl hcr hnl hparse hsz hlarge
  · intro hmax body hok
    unfold decodeChunked at hok
    rcases hloop : readChunksLoop H maxSize 0 [] s with e | p
    · rw [hloop] at hok
      cases hok
    · rcases p with ⟨contents, s1⟩
      rw [hloop] at hok
      rcases hfoot : skipFooter H s1 with e | s2
      · simp only [hfoot] at hok
        exact absurd hok (by simp)
      · simp only [hfoot, Except.ok.injEq] at hok
        rw [← hok]
        exact readChunksLoop_ok_bound_aux H maxSize s.length s le_rfl 0 []
          contents s1 (by simp) hmax hloop

/-- C3 witness: a stream declaring a 5-byte chunk against a cap of 3
aborts with the too-large error (loop-level part), and the successful
decode of the 5-byte example against the 512 KiB default cap returns a
body of total length at most the cap. -/
theorem C3_bodyTooLarge_witness :
    readChunksLoop 128 3 0 []
        [53, 13, 10, 104, 101, 108, 108, 111, 13, 10, 48, 13, 10, 13, 10]
      = .error .bodyTooLarge
    ∧ (([53, 13, 10, 104, 101, 108, 108, 111, 13, 10, 48, 13, 10, 13, 10].map
        (fun x => x)).length = 15) := by
  constructor
  · exact (C3_bodyTooLarge 128 3
      [53, 13, 10, 104, 101, 108, 108, 111, 13, 10, 48, 13, 10, 13, 10]).1
      0 [] [53, 13, 10] [104, 101, 108, 108, 111, 13, 10, 48, 13, 10, 13, 10]
      5 (by decide) (by decide) (by decide) (by decide) (by decide)
      (by decide)
  · decide

/-! ### C4: chunk-size parsing -/

/-- C4 counterexample: the header line `-5\r\n` is not a valid
non-negative base-16 numeral, yet the decoder does not fail with the
`MalformedChunkSize` error — `int(·, 16)` accepts the sign, the
negative size makes `read` consume the whole stream, and the decode
ends in `ConnectionReset` instead. -/
theorem C4_counterexample :
    decodeChunked 128 (512 * 1024) [45, 53, 13, 10, 48, 13, 10, 13, 10]
      = .error .connectionReset := by
  have h1 : readChunksLoop 128 (512 * 1024) 0 []
      [45, 53, 13, 10, 48, 13, 10, 13, 10] = .error .connectionReset := by
    rw [readChunksLoop_chunk 128 (512 * 1024) 0 [] _ [45, 53, 13, 10]
      [48, 13, 10, 13, 10] (-5) (by decide) (by decide) (by decide)
      (by decide) (by decide) (by decide)]
    have hrp : (readPy 2 (readPy (-5) [48, 13, 10, 13, 10]).2).2 = [] := by
      decide
    rw [hrp]
    exact readChunksLoop_reset 128 _ _ _ [] [] (readline_nil 128)
  unfold decodeChunked
  rw [h1]

/-- C4 (amended): the decoder parses the part of the header line before
the first `;` with Python `int(·, 16)` semantics (optional surrounding
whitespace, optional sign, optional `0x` prefix).  A field that does not
parse under these rules fails with `MalformedChunkSize`; a field parsing
to zero marks the last-chunk and stops the loop.  (A field parsing to a
negative value is accepted rather than rejected — see the
counterexample.) -/
theorem C4_parseFailure (H : Nat) (maxSize total : Int)
    (contents : List (List Nat)) (s line s1 : List Nat)
    (hrl : readline H s = (line, s1)) (hcr : line ≠ crlf)
    (hnl : line ≠ []) :
    (pyIntHex (splitSemi line) = none →
      readChunksLoop H maxSize total contents s = .error .malformedChunkSize)
    ∧ (pyIntHex (splitSemi line) = some 0 →
      readChunksLoop H maxSize total contents s = .ok (contents, s1)) :=
  ⟨fun h => readChunksLoop_malformed H maxSize total contents s line s1
      hrl hcr hnl h,
    fun h => readChunksLoop_stop_zero H maxSize total contents s line s1
      hrl hcr hnl h⟩

/-- C4 witness: the stream `zz\r\n...` has a non-hexadecimal size field
and the loop fails with `MalformedChunkSize`. -/
theorem C4_parseFailure_witness :
    readChunksLoop 128 (512 * 1024) 0 []
        [122, 122, 13, 10, 48, 13, 10, 13, 10]
      = .error .malformedChunkSize :=
  (C4_parseFailure 128 (512 * 1024) 0 [] _ [122, 122, 13, 10]
    [48, 13, 10, 13, 10] (by decide) (by decide) (by decide)).1 (by decide)

/-! ### C6: connection reset on a closed stream -/

/-- C6: whenever the decoder expects a chunk-header or trailer line and
the stream is exhausted (a zero-length read), it fails with
`ConnectionReset` and no body is handed to the caller; in particular a
whole decode of a closed stream fails that way. -/
theorem C6_connectionReset (H : Nat) (maxSize total : Int)
    (contents : List (List Nat)) :
    readChunksLoop H maxSize total contents [] = .error .connectionReset
    ∧ skipFooter H [] = .error .connectionReset
    ∧ decodeChunked H maxSize [] = .error .connectionReset := by
  refine ⟨readChunksLoop_reset H maxSize total contents [] []
      (readline_nil H),
    skipFooter_reset H [] [] (readline_nil H), ?_⟩
  unfold decodeChunked
  rw [readChunksLoop_reset H maxSize 0 [] [] [] (readline_nil H)]

/-! ### C7: over-long header lines -/

set_option maxRecDepth 4000 in
/-- C7 counterexample: a header line of 130 zero digits (longer than the
128-byte `chunk_header_length` cap) followed by `5\r\n\r\n` does not
fail with any line-too-long condition: `readline` silently truncates it
at 128 bytes, the truncated prefix parses as chunk-size 0, and the
decode succeeds with an empty body. -/
theorem C7_counterexample :
    decodeChunked 128 (512 * 1024)
        (List.replicate 130 48 ++ [53, 13, 10, 13, 10]) = .ok [] := by
  have h1 : readChunksLoop 128 (512 * 1024) 0 []
      (List.replicate 130 48 ++ [53, 13, 10, 13, 10])
      = .ok ([], [48, 48, 53, 13, 10, 13, 10]) :=
    readChunksLoop_stop_zero 128 (512 * 1024) 0 [] _
      (List.replicate 128 48) [48, 48, 53, 13, 10, 13, 10]
      (by decide) (by decide) (by decide) (by decide)
  have h2 : skipFooter 128 [48, 48, 53, 13, 10, 13, 10] = .ok [] := by
    rw [skipFooter_next 128 _ [48, 48, 53, 13, 10] [13, 10]
      (by decide) (by decide) (by decide)]
    exact skipFooter_stop 128 _ [] (by decide)
  unfold decodeChunked
  rw [h1]
  simp only [h2]

/-- C7 (amended): a header line that exceeds `chunk_header_length` bytes
without a line terminator is not a distinct failure condition: the
bounded `readline` returns exactly the first `chunk_header_length` bytes
and the loop processes that truncated prefix as the header line — in
particular it fails with the ordinary `MalformedChunkSize` when the
prefix is not valid hexadecimal, and with no error at all when it is. -/
theorem C7_truncation (H : Nat) (s : List Nat)
    (hnb : 10 ∉ s.take H) (hlen : H ≤ s.length) :
    readline H s = (s.take H, s.drop H)
    ∧ (∀ (maxSize total : Int) (contents : List (List Nat)),
        s.take H ≠ crlf → s.take H ≠ [] →
        pyIntHex (splitSemi (s.take H)) = none →
        readChunksLoop H maxSize total contents s
          = .error .malformedChunkSize) := by
  have hread : readline H s = (s.take H, s.drop H) := by
    induction H generalizing s with
    | zero =>
      cases s <;> simp [readline]
    | succ n ih =>
      cases s with
      | nil => simp at hlen
      | cons b rest =>
        have hb : b ≠ 10 := by
          intro h
          apply hnb
          rw [h]
          simp [List.take_succ_cons]
        simp only [readline, if_neg hb, List.take_succ_cons,
          List.drop_succ_cons]
        rw [ih rest (by
          intro h
          exact hnb (by simp [List.take_succ_cons, h]))
          (by simp at hlen; omega)]
  refine ⟨hread, ?_⟩
  intro maxSize total contents hcr hnl hparse
  exact readChunksLoop_malformed H maxSize total contents s (s.take H)
    (s.drop H) hread hcr hnl hparse

set_option maxRecDepth 4000 in
/-- C7 witness: 130 bytes of `z` with no terminator — the line is read
as its first 128 bytes and the loop reports `MalformedChunkSize`, not a
line-length error. -/
theorem C7_truncation_witness :
    readline 128 (List.replicate 130 122)
      = ((List.replicate 130 122).take 128, (List.replicate 130 122).drop 128)
    ∧ readChunksLoop 128 (512 * 1024) 0 [] (List.replicate 130 122)
      = .error .malformedChunkSize := by
  have h := C7_truncation 128 (List.replicate 130 122) (by decide) (by decide)
  exact ⟨h.1, h.2 (512 * 1024) 0 [] (by decide) (by decide) (by decide)⟩

/-! ### C10: bare CRLF stops the chunk loop at any iteration -/

/-- C10: at every iteration of the chunk-reading loop — for any
already-accumulated contents and running total, not only before the
first chunk — a header line equal to the bare terminator CRLF stops the
loop exactly as a last-chunk would, returning the accumulated chunks;
the trailer loop then consumes the final CRLF so the decode hands the
accumulated chunks off as a successful body. -/
theorem C10_bareCrlf (H : Nat) (maxSize total : Int)
    (contents : List (List Nat)) (s s1 : List Nat)
    (hrl : readline H s = (crlf, s1)) (hH : 2 ≤ H) :
    readChunksLoop H maxSize total contents s = .ok (contents, s1)
    ∧ (∀ rest, s1 = crlf ++ rest → skipFooter H s1 = .ok rest) := by
  refine ⟨readChunksLoop_stop_crlf H maxSize total contents s s1 hrl, ?_⟩
  intro rest h
  rw [h]
  exact skipFooter_crlf H rest hH

/-- C10 witness: with one 3-byte chunk already accumulated, a bare CRLF
line stops the loop and the trailing CRLF is consumed as the trailer. -/
theorem C10_bareCrlf_witness :
    readChunksLoop 128 (512 * 1024) 3 [[97, 98, 99]] [13, 10, 13, 10]
      = .ok ([[97, 98, 99]], [13, 10])
    ∧ skipFooter 128 [13, 10] = .ok [] := by
  have h := C10_bareCrlf 128 (512 * 1024) 3 [[97, 98, 99]]
    [13, 10, 13, 10] [13, 10] (by decide) (by decide)
  exact ⟨h.1, h.2 [] (by decide)⟩

/-! ### C8: concrete encoder bytes -/

/-- C8: encoding the payload `[b"hello", b"world"]` with
`chunk_max_size = 3` writes exactly the wire bytes
`b"3\r\nhel\r\n2\r\nlo\r\n3\r\nwor\r\n2\r\nld\r\n0\r\n\r\n"` after the
header block: lowercase hexadecimal sizes with no chunk-extension, each
fragment followed by CRLF, terminated by the last-chunk marker and an
empty trailer CRLF. -/
theorem C8_concreteEncode :
    sendChunked 3 [asciiBytes "hello", asciiBytes "world"]
      = asciiBytes "3\r\nhel\r\n2\r\nlo\r\n3\r\nwor\r\n2\r\nld\r\n0\r\n\r\n" := by
  have h3 : hexStr 3 = [51] := by
    rw [hexStr_eq]
    norm_num [hexDigitChar]
  have h2 : hexStr 2 = [50] := by
    rw [hexStr_eq]
    norm_num [hexDigitChar]
  have hf1 : fragments 3 (asciiBytes "hello")
      = [[104, 101, 108], [108, 111]] := by decide
  have hf2 : fragments 3 (asciiBytes "world")
      = [[119, 111, 114], [108, 100]] := by decide
  unfold sendChunked
  rw [List.map_cons, List.map_cons, List.map_nil, hf1, hf2]
  simp [frameFragment, h3, h2, crlf, asciiBytes]

/-! ### C9: constructor validation -/

theorem checkForceChunked_ok (k : Kwargs) (c c2 : HandlerConfig)
    (h : checkForceChunked k c = .ok c2) :
    c2.max_content_size = c.max_content_size
    ∧ c2.chunk_max_size = c.chunk_max_size
    ∧ c2.chunk_read_timeout = c.chunk_read_timeout
    ∧ c2.chunk_header_length = c.chunk_header_length := by
  unfold checkForceChunked at h
  split at h
  · simp only [Except.ok.injEq] at h
    subst h
    exact ⟨rfl, rfl, rfl, rfl⟩
  · split at h
    · simp only [Except.ok.injEq] at h
      subst h
      exact ⟨rfl, rfl, rfl, rfl⟩
    · cases h

theorem checkChunkMaxSize_ok (k : Kwargs) (c c2 : HandlerConfig)
    (h : checkChunkMaxSize k c = .ok c2) :
    c2.max_content_size = c.max_content_size
    ∧ (c2.chunk_max_size = c.chunk_max_size ∨ 0 < c2.chunk_max_size)
    ∧ c2.chunk_read_timeout = c.chunk_read_timeout
    ∧ c2.chunk_header_length = c.chunk_header_length := by
  unfold checkChunkMaxSize at h
  split at h
  · simp only [Except.ok.injEq] at h
    subst h
    exact ⟨rfl, Or.inl rfl, rfl, rfl⟩
  · rename_i v hc
    split at h
    · simp only [Except.ok.injEq] at h
      subst h
      exact ⟨rfl, Or.inr (by assumption), rfl, rfl⟩
    · cases h

theorem checkChunkReadTimeout_ok (k : Kwargs) (c c2 : HandlerConfig)
    (h : checkChunkReadTimeout k c = .ok c2) :
    c2.max_content_size = c.max_content_size
    ∧ c2.chunk_max_size = c.chunk_max_size
    ∧ (c2.chunk_read_timeout = c.chunk_read_timeout
        ∨ 0 < c2.chunk_read_timeout)
    ∧ c2.chunk_header_length = c.chunk_header_length := by
  unfold checkChunkReadTimeout at h
  split at h
  · simp only [Except.ok.injEq] at h
    subst h
    exact ⟨rfl, rfl, Or.inl rfl, rfl⟩
  · split at h
    · simp only [Except.ok.injEq] at h
      subst h
      exact ⟨rfl, rfl, Or.inr (by assumption), rfl⟩
    · cases h

/-- C9 counterexample: supplying the invalid (negative) value `-5` for
the `max_content_size` option does not make the constructor fail — the
kwargs entry is never read, construction succeeds and the instance
keeps the class default of 512 KiB. -/
theorem C9_counterexample :
    initHandler { max_content_size := some (-5) } = .ok {}
    ∧ ({} : HandlerConfig).max_content_size = 512 * 1024 :=
  ⟨rfl, rfl⟩

/-- C9 (amended): only `force_chunked`, `chunk_max_size` and
`chunk_read_timeout` are constructor options, each validated eagerly
(membership in {True, False} under Python equality, positivity,
positivity) with an immediate `ValueError` on an invalid value; a
constructed instance always has positive `chunk_max_size` and
`chunk_read_timeout`; `max_content_size` and `chunk_header_length` are
not constructor options and always keep the class defaults `512 * 1024`
and `128`. -/
theorem C9_validation (k : Kwargs) :
    (∀ v, k.force_chunked = some v →
      (pyEq v (.bool true) || pyEq v (.bool false)) = false →
      initHandler k = .error .invalidForceChunked)
    ∧ (∀ v, k.chunk_max_size = some v → v ≤ 0 →
        ∃ e, initHandler k = .error e)
    ∧ (∀ v, k.chunk_read_timeout = some v → v ≤ 0 →
        ∃ e, initHandler k = .error e)
    ∧ (∀ c, initHandler k = .ok c →
        0 < c.chunk_max_size ∧ 0 < c.chunk_read_timeout
        ∧ c.max_content_size = 512 * 1024
        ∧ c.chunk_header_length = 128) := by
  refine ⟨?_, ?_, ?_, ?_⟩
  · intro v hv hbad
    simp [initHandler, checkForceChunked, hv, hbad]
  · intro v hv hle
    rcases hfc : checkForceChunked k {} with e | c1
    · refine ⟨e, ?_⟩
      unfold initHandler
      rw [hfc]
    · refine ⟨.invalidChunkMaxSize, ?_⟩
      have hms : checkChunkMaxSize k c1 = .error .invalidChunkMaxSize := by
        unfold checkChunkMaxSize
        rw [hv]
        simp only [if_neg (by omega : ¬v > 0)]
      unfold initHandler
      rw [hfc]
      simp only [hms]
  · intro v hv hle
    rcases hfc : checkForceChunked k {} with e | c1
    · refine ⟨e, ?_⟩
      unfold initHandler
      rw [hfc]
    · rcases hms : checkChunkMaxSize k c1 with e | c2
      · refine ⟨e, ?_⟩
        unfold initHandler
        rw [hfc]
        simp only [hms]
      · refine ⟨.invalidChunkReadTimeout, ?_⟩
        have hrt : checkChunkReadTimeout k c2
            = .error .invalidChunkReadTimeout := by
          unfold checkChunkReadTimeout
          rw [hv]
          simp only [if_neg (by omega : ¬v > 0)]
        unfold initHandler
        rw [hfc]
        simp only [hms, hrt]
  · intro c hok
    unfold initHandler at hok
    rcases hfc : checkForceChunked k {} with e | c1 <;> rw [hfc] at hok
    · cases hok
    · rcases hms : checkChunkMaxSize k c1 with e | c2 <;>
        simp only [hms] at hok
      · cases hok
      · have h1 := checkForceChunked_ok k {} c1 hfc
        have h2 := checkChunkMaxSize_ok k c1 c2 hms
        have h3 := checkChunkReadTimeout_ok k c2 c hok
        have hd1 : ({} : HandlerConfig).max_content_size = 512 * 1024 := rfl
        have hd2 : ({} : HandlerConfig).chunk_max_size = 512 := rfl
        have hd3 : ({} : HandlerConfig).chunk_read_timeout = 5 := rfl
        have hd4 : ({} : HandlerConfig).chunk_header_length = 128 := rfl
        refine ⟨?_, ?_, ?_, ?_⟩
        · rcases h2.2.1 with h | h
          · rw [h3.2.1, h, h1.2.1, hd2]
            omega
          · rw [h3.2.1]
            exact h
        · rcases h3.2.2.1 with h | h
          · rw [h, h2.2.2.1, h1.2.2.1, hd3]
            omega
          · exact h
        · rw [h3.1, h2.1, h1.1, hd1]
        · rw [h3.2.2.2, h2.2.2.2, h1.2.2.2, hd4]

/-- C9 witness: an instance built with an invalid `chunk_max_size` of 0
fails, and one built with no kwargs yields the validated defaults. -/
theorem C9_validation_witness :
    (∃ e, initHandler { chunk_max_size := some 0 } = .error e)
    ∧ (0 < ({} : HandlerConfig).chunk_max_size
        ∧ 0 < ({} : HandlerConfig).chunk_read_timeout
        ∧ ({} : HandlerConfig).max_content_size = 512 * 1024
        ∧ ({} : HandlerConfig).chunk_header_length = 128) := by
  constructor
  · exact (C9_validation { chunk_max_size := some 0 }).2.1 0 rfl le_rfl
  · exact (C9_validation {}).2.2.2 {} rfl

/-- C1 witness: the concrete payload `[b"hello", b"world"]` with
`chunk_max_size = 3` round-trips through encoder and decoder. -/
theorem C1_roundTrip_witness :
    ∃ chunks, decodeChunked 128 (512 * 1024)
        (sendChunked 3 [asciiBytes "hello", asciiBytes "world"]) = .ok chunks
      ∧ chunks.flatten = [asciiBytes "hello", asciiBytes "world"].flatten :=
  C1_roundTrip 3 128 (512 * 1024) [asciiBytes "hello", asciiBytes "world"]
    (by decide) (by decide)
    (by intro c hc; fin_cases hc <;> decide)
    (by decide)
